import Mathlib

/-!
Verification of the contact-cleaning engine in `src/app.py` (a Streamlit app).

Shallow embedding conventions:

* A Python `str` is modelled as a `List Nat` of Unicode code points (`Str`).
  `enc` turns a Lean string literal into this representation.
* A pandas dataframe cell is an `Option Str`; `none` models a missing value
  (`NaN`).  Note that in Python `float('nan')` is *truthy* and
  `str(float('nan')) = "nan"`; the helpers `truthyCell` / `strCell` encode
  exactly that.
* The optional libraries `email_validator` and `phonenumbers` are absent
  (`EMAIL_VALIDATOR_AVAILABLE = PHONENUMBERS_AVAILABLE = False` branches),
  and `company_directory.csv` does not exist in the repository, so
  `company_dict` is empty.  The encoding-repair calls
  (`.encode('latin1').decode('utf-8')`, `ftfy.fix_text`, `unidecode`) are
  identities on the plain-ASCII domain modelled here and are therefore
  dropped.
* The Python ASCII case conversions, `str.title`, `str.strip`, `str.split`
  and the concrete regular expressions of the source are modelled by
  executable functions below; each is annotated with the Python expression
  it embeds.
-/

/-- A Python string, as its list of code points. -/
abbrev Str : Type := List Nat

/-- Encode a Lean string literal as a `Str`. -/
def enc (s : String) : Str := s.data.map Char.toNat

/-- Python `str` whitespace (ASCII part): space, \t, \n, \r, \x0b, \x0c. -/
def wsN (n : Nat) : Bool :=
  n == 32 || n == 9 || n == 10 || n == 13 || n == 11 || n == 12

/-- ASCII lower-case letter. -/
def isLowerN (n : Nat) : Bool := 97 ≤ n && n ≤ 122

/-- ASCII upper-case letter. -/
def isUpperN (n : Nat) : Bool := 65 ≤ n && n ≤ 90

/-- ASCII letter. -/
def isAlphaN (n : Nat) : Bool := isUpperN n || isLowerN n

/-- ASCII digit. -/
def isDigitN (n : Nat) : Bool := 48 ≤ n && n ≤ 57

/-- Regex word character `\w` (ASCII part): letter, digit or underscore. -/
def isWordN (n : Nat) : Bool := isAlphaN n || isDigitN n || n == 95

/-- Python `str.lower` on one ASCII code point. -/
def loC (n : Nat) : Nat := if isUpperN n then n + 32 else n

/-- Python `str.upper` on one ASCII code point. -/
def upC (n : Nat) : Nat := if isLowerN n then n - 32 else n

/-- Python `s.lower()`. -/
def pyLower (s : Str) : Str := s.map loC

/-- Python `s.upper()`. -/
def pyUpper (s : Str) : Str := s.map upC

/-- Python `s.strip()`: drop leading and trailing whitespace. -/
def pyStrip (s : Str) : Str :=
  ((s.dropWhile wsN).reverse.dropWhile wsN).reverse

/-- Worker for `pySplit`; `cur` is the (reversed-free) pending token. -/
def splitAux : Str → Str → List Str
  | [], cur => if cur.isEmpty then [] else [cur]
  | c :: rest, cur =>
    if wsN c then
      if cur.isEmpty then splitAux rest [] else cur :: splitAux rest []
    else
      splitAux rest (cur ++ [c])

/-- Python `s.split()`: split on whitespace runs, discarding empties. -/
def pySplit (s : Str) : List Str := splitAux s []

/-- Python `" ".join(parts)`. -/
def joinSp : List Str → Str
  | [] => []
  | [t] => t
  | t :: t' :: ts => t ++ 32 :: joinSp (t' :: ts)

/-- Worker for `pyTitle`: `prev` records whether the previous character was
a (cased) letter, as in the CPython `str.title`. -/
def pyTitleAux : Bool → Str → Str
  | _, [] => []
  | prev, c :: rest =>
    (if isAlphaN c then (if prev then loC c else upC c) else c)
      :: pyTitleAux (isAlphaN c) rest

/-- Python `s.title()` (ASCII): upper-case each letter that follows a
non-letter, lower-case every other letter. -/
def pyTitle (s : Str) : Str := pyTitleAux false s

/-- Truthiness of a dataframe cell: Python `bool(cell)`.  A `NaN` cell is a
float and floats that are `nan` are truthy; an empty string is falsy. -/
def truthyCell : Option Str → Bool
  | none => true
  | some s => !s.isEmpty

/-- Python `str(cell)`: a `NaN` cell prints as `"nan"`. -/
def strCell : Option Str → Str
  | none => enc "nan"
  | some s => s

/-- The module-level `DISPOSABLE_EMAIL_DOMAINS` set of `app.py`. -/
def DISPOSABLE_EMAIL_DOMAINS : List Str :=
  [enc "10minutemail.com", enc "tempmail.com", enc "guerrillamail.com",
   enc "mailinator.com", enc "throwaway.email", enc "temp-mail.org",
   enc "getnada.com", enc "mohmal.com"]

/-- Character class `[a-zA-Z0-9._%+-]` (local part of the email regex). -/
def emailLocalChar (n : Nat) : Bool :=
  isAlphaN n || isDigitN n || n == 46 || n == 95 || n == 37 || n == 43 || n == 45

/-- Character class `[a-zA-Z0-9.-]` (domain part of the email regex). -/
def emailDomainChar (n : Nat) : Bool :=
  isAlphaN n || isDigitN n || n == 46 || n == 45

/-- The regex `^[a-zA-Z0-9._%+-]+@[a-zA-Z0-9.-]+\.[a-zA-Z]{2,}$` of
`validate_email_format`.  The string matches iff it decomposes as
`A ++ "@" ++ B ++ "." ++ C` with `A` a nonempty run of local characters,
`B` a nonempty run of domain characters and `C` at least two letters; since
`C` admits no dot, the decomposition (when it exists) must use the last dot
after the single `@`, which is what is computed here. -/
def emailRegexOk (s : Str) : Bool :=
  let a := s.takeWhile (fun c => c != 64)
  match s.drop a.length with
  | [] => false
  | _ :: r =>
    !a.isEmpty && a.all emailLocalChar && !(r.contains 64) &&
    (let c := (r.reverse.takeWhile (fun n => n != 46)).reverse
     let b := r.take (r.length - c.length - 1)
     r.contains 46 && !b.isEmpty && b.all emailDomainChar &&
       decide (2 ≤ c.length) && c.all isAlphaN)

/-- Python `email_lower.split('@')[1]`: the segment between the first and
second `@` (here: after the only `@`). -/
def emailDomain (el : Str) : Str :=
  ((el.dropWhile (fun c => c != 64)).drop 1).takeWhile (fun c => c != 64)

/-- Embeds `validate_email_format` of `app.py` with
`EMAIL_VALIDATOR_AVAILABLE = False` (the library import is optional and the
fallback regex path is the specified behaviour). -/
def validate_email_format : Option Str → Bool × Str
  | none => (false, enc "Missing")
  | some s =>
    if s.isEmpty then (false, enc "Missing")
    else
      let s' := pyStrip s
      if s'.isEmpty then (false, enc "Missing")
      else
        let el := pyLower s'
        if !(emailRegexOk el) then (false, enc "Invalid Format")
        else if el.contains 64 && DISPOSABLE_EMAIL_DOMAINS.contains (emailDomain el) then
          (false, enc "Disposable Email")
        else (true, enc "Valid")

/-- Embeds `clean_phone_number` of `app.py` with
`PHONENUMBERS_AVAILABLE = False` (fallback path). -/
def clean_phone_number : Option Str → Str × Bool
  | none => ([], false)
  | some s =>
    if s.isEmpty then ([], false)
    else
      let phoneStr := pyStrip s
      let phoneClean := phoneStr.filter (fun c => isDigitN c || c == 43)
      if phoneClean.isEmpty then ([], false)
      else if 10 ≤ phoneClean.length then
        if phoneClean.headD 0 == 43 && phoneClean.length ≤ 11 then
          (phoneClean.drop 1, true)
        else (phoneClean, true)
      else (phoneClean, false)

/-- Python `str(name).lower().strip() if name else ''` as used on the
first/last-name arguments inside `detect_email_pattern`; a `NaN` cell is
truthy and stringifies to `"nan"`. -/
def nameLower : Option Str → Str
  | none => enc "nan"
  | some s => if s.isEmpty then [] else pyStrip (pyLower s)

/-- Embeds `detect_email_pattern` of `app.py`.  The `email` argument is the
string payload of the cell; every call site reaches this function only with
a validated (hence genuine, `@`-containing) string. -/
def detect_email_pattern (email : Str) (firstName lastName : Option Str) : Str :=
  if email.isEmpty || !(email.contains 64) then enc "unknown"
  else
    let el := pyStrip (pyLower email)
    let localPart := el.takeWhile (fun c => c != 64)
    let f := nameLower firstName
    let l := nameLower lastName
    if !f.isEmpty && !l.isEmpty then
      if localPart = f ++ 46 :: l then enc "firstname.lastname"
      else if localPart = f ++ 95 :: l then enc "firstname_lastname"
      else if localPart = f ++ 45 :: l then enc "firstname-lastname"
      else if localPart = f ++ l then enc "firstnamelastname"
      else if 0 < f.length ∧ localPart = f.take 1 ++ 46 :: l then
        enc "firstinitial.lastname"
      else if localPart = f.take 1 ++ l then enc "firstinitiallastname"
      else if localPart = l ++ 46 :: f then enc "lastname.firstname"
      else if localPart = l ++ 95 :: f then enc "lastname_firstname"
      else if !f.isEmpty && localPart = f then enc "firstname"
      else if !l.isEmpty && localPart = l then enc "lastname"
      else if localPart.any isDigitN then enc "with_numbers"
      else enc "other"
    else
      if !f.isEmpty && localPart = f then enc "firstname"
      else if !l.isEmpty && localPart = l then enc "lastname"
      else if localPart.any isDigitN then enc "with_numbers"
      else enc "other"

/-- Per-company consensus record, as stored by
`analyze_company_email_patterns` (the derived float `percentage` field,
`count/total*100`, is not claimed about and is omitted). -/
structure PatInfo where
  pattern : Str
  count : Nat
  total : Nat
deriving DecidableEq

/-- Dictionary lookup in the `company_patterns` map. -/
def lookupPat (k : Str) (l : List (Str × PatInfo)) : Option PatInfo :=
  (l.find? (fun e => e.1 == k)).map (fun e => e.2)

/-- Embeds `check_email_pattern_match` of `app.py`; `none` models the
`(None, None, None)` return for a company without an assigned pattern. -/
def check_email_pattern_match (email : Str) (firstName lastName companyCell : Option Str)
    (pats : List (Str × PatInfo)) : Option (Bool × Str × Str) :=
  match companyCell with
  | none => none
  | some c =>
    if c.isEmpty then none
    else
      match lookupPat c pats with
      | none => none
      | some info =>
        let detected := detect_email_pattern email firstName lastName
        some (decide (detected = info.pattern), detected, info.pattern)

/-- The module-level `COMMON_SUFFIXES` list of `app.py`, in source order
(the regex alternation tries them in this order). -/
def COMMON_SUFFIXES : List Str :=
  [enc "ltd", enc "inc", enc "group", enc "brands", enc "company",
   enc "companies", enc "incorporation", enc "corporation"]

/-- Does `suf` match case-insensitively at the head of `l`, with a word
boundary right after (end of string or a non-word character)?  The word
boundary before the match is handled by the caller. -/
def suffixAt (suf l : Str) : Bool :=
  pyLower (l.take suf.length) == suf &&
    (match l.drop suf.length with
     | [] => true
     | c :: _ => !isWordN c)

/-- First alternative of the suffix alternation matching at the head of
`l` (Python regex alternation is first-match, not longest-match). -/
def firstSuffixAt (l : Str) : Option Str :=
  COMMON_SUFFIXES.find? (fun suf => suffixAt suf l)

/-- Worker for `subSuffixes`: left-to-right scan of
`re.sub(r'\b(?:ltd|inc|...)\b', '', s, flags=IGNORECASE)`.  `prevW` records
whether the previous character is a word character (no `\b` there, so no
match can start); after a removed match the scan resumes right after the
matched text.  `fuel` only forces structural termination; one unit is spent
per step and each step consumes at least one character, so
`fuel = l.length` never runs out. -/
def subSuffixesAux : Nat → Bool → Str → Str
  | 0, _, l => l
  | _ + 1, _, [] => []
  | fuel + 1, prevW, c :: rest =>
    if prevW then c :: subSuffixesAux fuel (isWordN c) rest
    else
      match firstSuffixAt (c :: rest) with
      | some suf => subSuffixesAux fuel true (List.drop (suf.length - 1) rest)
      | none => c :: subSuffixesAux fuel (isWordN c) rest

/-- The suffix-removal `re.sub` of `clean_company`. -/
def subSuffixes (l : Str) : Str := subSuffixesAux l.length false l

/-- Python `re.sub(r'\s{2,}', ' ', s)`: each run of two or more whitespace
characters becomes one space; a lone whitespace character is kept as-is. -/
def collapseWS2Aux : Nat → Str → Str
  | 0, l => l
  | _ + 1, [] => []
  | fuel + 1, c :: rest =>
    if wsN c && (match rest with | c' :: _ => wsN c' | [] => false) then
      32 :: collapseWS2Aux fuel (rest.dropWhile wsN)
    else c :: collapseWS2Aux fuel rest

/-- See `collapseWS2Aux`. -/
def collapseWS2 (l : Str) : Str := collapseWS2Aux l.length l

/-- Python `re.sub(r'\s+', ' ', s)`: each whitespace run becomes one
space. -/
def collapseWS1Aux : Nat → Str → Str
  | 0, l => l
  | _ + 1, [] => []
  | fuel + 1, c :: rest =>
    if wsN c then 32 :: collapseWS1Aux fuel (rest.dropWhile wsN)
    else c :: collapseWS1Aux fuel rest

/-- See `collapseWS1Aux`. -/
def collapseWS1 (l : Str) : Str := collapseWS1Aux l.length l

/-- The module-level `company_dict` of `app.py`: it is populated from
`company_directory.csv` only when that file exists, and the repository has
no such file, so the dictionary is empty. -/
def company_dict : List (Str × Str) := []

/-- Lookup in `company_dict`. -/
def lookupCompany (k : Str) (l : List (Str × Str)) : Option Str :=
  (l.find? (fun e => e.1 == k)).map (fun e => e.2)

/-- Embeds `clean_company` of `app.py` on a string argument (the
`None`/`NaN` guard applies to the cell form; `clean_data` passes the
trimmed string).  Encoding repair is the identity on the modelled ASCII
domain. -/
def clean_company (name : Str) : Str :=
  let nameStr := pyStrip name
  if nameStr = [] ∨ pyLower nameStr ∈ [enc "nan", enc "none", enc "null", enc ""] then []
  else
    match lookupCompany (pyLower nameStr) company_dict with
    | some v => v
    | none =>
      let s1 := subSuffixes nameStr
      let s2 := s1.filter (fun c => isAlphaN c || isDigitN c || wsN c || c == 45)
      let s3 := pyStrip (collapseWS2 s2)
      if s3 = [] then []
      else if s3.length ≤ 4 then pyUpper s3
      else pyTitle s3

/-- Embeds `clean_first_name` of `app.py`: strip (after identity encoding
repair), take the first whitespace token, title-case it. -/
def clean_first_name (name : Str) : Str :=
  let n := pyStrip name
  if n = [] then []
  else
    match pySplit n with
    | [] => []
    | t :: _ => pyTitle t

/-- The per-token body of the loop in `clean_last_name`: the Mc-prefix rule
(`"Mc" + part[2:].title()` when the lowered token starts with `mc` and is
longer than two characters), otherwise plain `title()`. -/
def mcPart (part : Str) : Str :=
  if [109, 99].isPrefixOf (pyLower part) ∧ 2 < part.length then
    enc "Mc" ++ pyTitle (part.drop 2)
  else pyTitle part

/-- Embeds `clean_last_name` of `app.py`: strip, split on whitespace,
process every token with the Mc rule, join with single spaces. -/
def clean_last_name (name : Str) : Str :=
  let n := pyStrip name
  if n = [] then []
  else joinSp ((pySplit n).map mcPart)

/-- The regex `rf"{re.escape(first_lower)}[._-]?([a-z]+)"` applied with
`re.match` to the local part: after the literal first name, the optional
separator is consumed greedily when present, and the capture is the maximal
run of lower-case letters that follows; if the separator is consumed but no
letter follows, backtracking retries without the separator, which then also
fails (a separator is not a letter). -/
def localTail (fl user : Str) : Option Str :=
  if fl.isPrefixOf user then
    match user.drop fl.length with
    | [] => none
    | c :: cs =>
      if c = 46 ∨ c = 95 ∨ c = 45 then
        let letters := cs.takeWhile isLowerN
        if letters = [] then none else some letters
      else
        let letters := (c :: cs).takeWhile isLowerN
        if letters = [] then none else some letters
  else none

/-- Embeds `infer_last_from_email` of `app.py` (string arguments, as passed
by `clean_data`; `pd.isna` is false on a string). -/
def infer_last_from_email (firstName email : Str) : Str :=
  if email = [] ∨ firstName = [] then []
  else
    let user := pyLower (email.takeWhile (fun c => c != 64))
    let fl := pyLower firstName
    match localTail fl user with
    | some cap => pyTitle cap
    | none =>
      match user, fl with
      | u0 :: urest, f0 :: _ =>
        if u0 = f0 then (if urest = [] then [] else pyTitle urest)
        else []
      | _, _ => []

/-- The module-level `JOB_TITLE_ABBREVIATIONS` dictionary of `app.py`. -/
def JOB_TITLE_ABBREVIATIONS : List (Str × Str) :=
  [(enc "ceo", enc "Chief Executive Officer"),
   (enc "cto", enc "Chief Technology Officer"),
   (enc "cfo", enc "Chief Financial Officer"),
   (enc "cmo", enc "Chief Marketing Officer"),
   (enc "coo", enc "Chief Operating Officer"),
   (enc "vp", enc "Vice President"),
   (enc "svp", enc "Senior Vice President"),
   (enc "evp", enc "Executive Vice President"),
   (enc "dir", enc "Director"),
   (enc "mgr", enc "Manager"),
   (enc "sr", enc "Senior"),
   (enc "jr", enc "Junior"),
   (enc "eng", enc "Engineer"),
   (enc "dev", enc "Developer"),
   (enc "pm", enc "Product Manager"),
   (enc "hr", enc "Human Resources"),
   (enc "pr", enc "Public Relations"),
   (enc "it", enc "Information Technology")]

/-- Python `word.lower().rstrip('.')`. -/
def lowerRstripDots (w : Str) : Str :=
  ((pyLower w).reverse.dropWhile (fun c => c == 46)).reverse

/-- Embeds `clean_job_title` of `app.py` on a cell. -/
def clean_job_title (title : Option Str) : Str :=
  match title with
  | none => []
  | some s =>
    if s = [] then []
    else
      let titleStr := pyStrip s
      if titleStr = [] then []
      else
        let titled := pyTitle titleStr
        let expanded :=
          (pySplit titled).map (fun w =>
            match (JOB_TITLE_ABBREVIATIONS.find? (fun e => e.1 == lowerRstripDots w)).map
                (fun e => e.2) with
            | some full => full
            | none => w)
        pyStrip (collapseWS1 (joinSp expanded))

/-- One dataframe row, restricted to the columns the engine reads.  The
standard column names of `app.py` are assumed present (`Email`, `Phone`,
`Job Title`, `First Name`, `Last Name`, `Company`). -/
structure Row where
  first : Option Str
  last : Option Str
  company : Option Str
  email : Option Str
  phone : Option Str
  title : Option Str
deriving DecidableEq

/-- The distinct non-null company keys of `df.groupby(company_col)`
(pandas drops `NaN` group keys), in first-occurrence order (the claims
only concern membership, not key order). -/
def companyKeys (rows : List Row) : List Str :=
  (rows.filterMap (fun r => r.company)).dedup

/-- Increment the counter of `pattern` in the insertion-ordered
`pattern_counts` dictionary (`dict.get(p, 0) + 1`). -/
def bumpCount (counts : List (Str × Nat)) (pattern : Str) : List (Str × Nat) :=
  match counts with
  | [] => [(pattern, 1)]
  | (p, n) :: rest =>
    if p = pattern then (p, n + 1) :: rest
    else (p, n) :: bumpCount rest pattern

/-- Per-row body of the tally loop in `analyze_company_email_patterns`:
skip null/blank emails, skip emails failing `validate_email_format`, else
count the row as valid and bump its detected pattern. -/
def tallyStep (acc : List (Str × Nat) × Nat) (r : Row) : List (Str × Nat) × Nat :=
  match r.email with
  | none => acc
  | some e =>
    if pyStrip e = [] then acc
    else if (validate_email_format (some e)).1 = false then acc
    else (bumpCount acc.1 (detect_email_pattern e r.first r.last), acc.2 + 1)

/-- Python `max(pattern_counts, key=pattern_counts.get)` over the
insertion-ordered dictionary: the first key attaining the maximal count
(`max` keeps the current candidate on ties). -/
def pickMax (e : Str × Nat) : List (Str × Nat) → Str × Nat
  | [] => e
  | q :: rest => pickMax (if e.2 < q.2 then q else e) rest

/-- The per-company body of `analyze_company_email_patterns`: `none` when
the company gets no assigned pattern. -/
def processCompany (rows : List Row) (k : Str) : Option PatInfo :=
  let group := rows.filter (fun r => r.company == some k)
  if group.length < 2 then none
  else if pyStrip k = [] then none
  else
    let tally := group.foldl tallyStep ([], 0)
    if 2 ≤ tally.2 then
      match tally.1 with
      | [] => none
      | e :: rest =>
        let dom := pickMax e rest
        if 2 * dom.2 ≥ tally.2 then some ⟨dom.1, dom.2, tally.2⟩
        else none
    else none

/-- Embeds `analyze_company_email_patterns` of `app.py`.  The acceptance
test `count / valid >= 0.5` (Python float division of two small naturals)
is modelled exactly as `2 * count >= valid`. -/
def analyze_company_email_patterns (rows : List Row) : List (Str × PatInfo) :=
  (companyKeys rows).filterMap
    (fun k => (processCompany rows k).map (fun pi => (k, pi)))

/-- Row used for out-of-range `getD` accesses (never reached under the
index bounds used below). -/
def dummyRow : Row := ⟨none, none, none, none, none, none⟩

/-- Index `i` is marked by `df.duplicated(subset=[email_col], keep=False)`:
some other row has the identical email cell.  pandas `duplicated` treats
`NaN` keys as equal to each other, which the plain `Option` equality
models. -/
def emailDupAt (rows : List Row) (i : Nat) : Prop :=
  ∃ j ∈ List.range rows.length, j ≠ i ∧
    (rows.getD j dummyRow).email = (rows.getD i dummyRow).email

/-- Index `i` is marked by
`df.duplicated(subset=['First Name', 'Last Name'], keep=False)`. -/
def nameDupAt (rows : List Row) (i : Nat) : Prop :=
  ∃ j ∈ List.range rows.length, j ≠ i ∧
    (rows.getD j dummyRow).first = (rows.getD i dummyRow).first ∧
    (rows.getD j dummyRow).last = (rows.getD i dummyRow).last

/-- The duplicate criterion of `find_duplicates`. -/
def dupAt (rows : List Row) (i : Nat) : Prop :=
  emailDupAt rows i ∨ nameDupAt rows i

instance (rows : List Row) (i : Nat) : Decidable (emailDupAt rows i) :=
  List.decidableBEx _ _

instance (rows : List Row) (i : Nat) : Decidable (nameDupAt rows i) :=
  List.decidableBEx _ _

instance (rows : List Row) (i : Nat) : Decidable (dupAt rows i) :=
  inferInstanceAs (Decidable (_ ∨ _))

/-- Embeds `find_duplicates` of `app.py` (all relevant columns present):
the set `duplicate_indices` of row indices marked by either duplicated
test, listed in ascending order (the source materialises the set in
unspecified order; the claims only concern membership). -/
def find_duplicates (rows : List Row) : List Nat :=
  (List.range rows.length).filter (fun i => decide (dupAt rows i))

/-- Python truthiness-guarded validity used by the scorer: 30 points iff
the email cell is truthy and `validate_email_format` accepts it.  (A valid
email is automatically truthy; the guard is kept for fidelity.) -/
def emailPts (r : Row) : Int :=
  if truthyCell r.email ∧ (validate_email_format r.email).1 then 30 else 0

/-- First-name points: truthy cell whose `str(...).strip()` has length at
least 2 (note `str(NaN) = "nan"` has length 3). -/
def firstPts (r : Row) : Int :=
  if truthyCell r.first ∧ 2 ≤ (pyStrip (strCell r.first)).length then 20 else 0

/-- Last-name points, as `firstPts`. -/
def lastPts (r : Row) : Int :=
  if truthyCell r.last ∧ 2 ≤ (pyStrip (strCell r.last)).length then 20 else 0

/-- Company points, as `firstPts` but 15. -/
def companyPts (r : Row) : Int :=
  if truthyCell r.company ∧ 2 ≤ (pyStrip (strCell r.company)).length then 15 else 0

/-- Phone points: truthy cell that `clean_phone_number` validates. -/
def phonePts (r : Row) : Int :=
  if truthyCell r.phone ∧ (clean_phone_number r.phone).2 then 15 else 0

/-- The `email_bonus` computed by `calculate_data_quality_score`: only in
the valid-email branch, only when pattern checking is on and the pattern
map is truthy (non-empty), and only for a truthy company key present in
the map; `+10` on a pattern match, `-10` otherwise provided the expected
pattern is truthy (`elif expected:`). -/
def emailBonus (r : Row) (pats : List (Str × PatInfo)) (check : Bool) : Int :=
  if truthyCell r.email ∧ (validate_email_format r.email).1 then
    if check = true ∧ pats ≠ [] then
      if truthyCell r.company &&
          (match r.company with
           | some c => (lookupPat c pats).isSome
           | none => false) then
        match check_email_pattern_match (r.email.getD []) r.first r.last r.company pats with
        | some (isMatch, _, expected) =>
          if isMatch then 10 else if expected ≠ [] then -10 else 0
        | none => 0
      else 0
    else 0
  else 0

/-- Embeds `calculate_data_quality_score` of `app.py`: `max_score` is the
constant 100, and for every reachable value `v` of
`score + email_bonus` (a sum drawn from 30/20/20/15/15 plus a bonus of
−10/0/+10 only ever added to a sum containing 30) the Python expression
`int((v / 100) * 100)` equals `v` exactly in IEEE double arithmetic, so the
normalisation is the exact clamp `max(0, min(100, v))`. -/
def calculate_data_quality_score (r : Row) (pats : List (Str × PatInfo)) (check : Bool) : Int :=
  let score := emailPts r + firstPts r + lastPts r + companyPts r + phonePts r
  let finalScore := score + emailBonus r pats check
  max 0 (min 100 finalScore)

/-- The columns `clean_data` can write to (plus `email`, which it reads
only). -/
inductive Col where
  | first
  | last
  | company
  | email
  | phone
  | title
deriving DecidableEq

/-- `cleaned_df.at[i, col] = value`: write one cell of the row. -/
def setCell (r : Row) (c : Col) (v : Str) : Row :=
  match c with
  | .first => { r with first := some v }
  | .last => { r with last := some v }
  | .company => { r with company := some v }
  | .email => { r with email := some v }
  | .phone => { r with phone := some v }
  | .title => { r with title := some v }

/-- The per-row slice of the boolean `changed_mask` dataframe. -/
structure Mask where
  first : Bool
  last : Bool
  company : Bool
  email : Bool
  phone : Bool
  title : Bool
deriving DecidableEq

/-- The all-`False` mask row `changed_mask` is initialised with. -/
def emptyMask : Mask := ⟨false, false, false, false, false, false⟩

/-- `changed_mask.at[i, col] = True`. -/
def setFlag (m : Mask) (c : Col) : Mask :=
  match c with
  | .first => { m with first := true }
  | .last => { m with last := true }
  | .company => { m with company := true }
  | .email => { m with email := true }
  | .phone => { m with phone := true }
  | .title => { m with title := true }

/-- The boolean step options of `clean_data` (column names are the
standard ones; the remaining options of the sidebar do not reach
`clean_data`). -/
structure CleanOptions where
  clean_names : Bool
  infer_last_name : Bool
  cleanCompanyOpt : Bool
  validate_email : Bool
  clean_phone : Bool
  clean_job_title : Bool
  calculate_quality_score : Bool
  check_company_email_pattern : Bool
deriving DecidableEq

/-- Python ` '' if pd.isna(v) else str(v).strip() ` applied to a cell. -/
def origCell : Option Str → Str
  | none => []
  | some s => pyStrip s

/-- One conditional dataframe write of the cleaning loop:
`if P: changed_mask.at[i, c] = True; cleaned_df.at[i, c] = v`. -/
def applyUpd (rm : Row × Mask) (c : Col) (v : Str) (P : Prop) [Decidable P] : Row × Mask :=
  if P then (setCell rm.1 c v, setFlag rm.2 c) else rm

/-- The first (per-row cleaning) pass of `clean_data` for one row:
returns the cleaned row and its `changed_mask` slice.  Writes happen in
source order: phone, job title, first name, last name, company; the email
column is never written.  The source guards the phone and job-title writes
by two nested `if`s (step enabled, then value changed); here the two
conditions are one conjunction. -/
def clean_data_row (o : CleanOptions) (r : Row) : Row × Mask :=
  let origFirst := origCell r.first
  let origLast := origCell r.last
  let origCompany := origCell r.company
  let email := origCell r.email
  let first := if o.clean_names then clean_first_name origFirst else origFirst
  let last :=
    if origLast ≠ [] then
      if o.clean_names then clean_last_name origLast else origLast
    else
      if o.infer_last_name then
        let inferred := infer_last_from_email first email
        if inferred ≠ [] then clean_last_name inferred else []
      else []
  let company := if o.cleanCompanyOpt then clean_company origCompany else origCompany
  let origPhone := origCell r.phone
  let phoneClean := (clean_phone_number (some origPhone)).1
  let origTitle := origCell r.title
  let titleClean := clean_job_title (some origTitle)
  let rm1 := applyUpd (r, emptyMask) .phone phoneClean
    (o.clean_phone = true ∧ phoneClean ≠ origPhone)
  let rm2 := applyUpd rm1 .title titleClean
    (o.clean_job_title = true ∧ titleClean ≠ origTitle)
  let rm3 := applyUpd rm2 .first first (first ≠ origFirst)
  let rm4 := applyUpd rm3 .last last (last ≠ origLast)
  applyUpd rm4 .company company (company ≠ origCompany)

/-- Embeds `clean_data` of `app.py`: first pass cleans every row and fills
the changed mask; then, if enabled, company email patterns are analysed on
the cleaned rows and quality scores computed on them (the fourth result,
the would-be `Quality Score` column).  The returned validation report,
`pattern_match_info` report and percentage statistic are presentation data
not claimed about and are omitted. -/
def clean_data (o : CleanOptions) (rows : List Row) :
    List Row × List Mask × List (Str × PatInfo) × List Int :=
  let cleanedMasked := rows.map (clean_data_row o)
  let cleaned := cleanedMasked.map (fun rm => rm.1)
  let masks := cleanedMasked.map (fun rm => rm.2)
  let pats :=
    if o.check_company_email_pattern then analyze_company_email_patterns cleaned
    else []
  let scores :=
    if o.calculate_quality_score then
      cleaned.map (fun r =>
        calculate_data_quality_score r pats o.check_company_email_pattern)
    else []
  (cleaned, masks, pats, scores)

/-- The pattern the engine detects for a row (the email payload together
with the first/last-name cells), as used both in the consensus tally and
in the pattern match check. -/
def rowPattern (r : Row) : Str :=
  detect_email_pattern (r.email.getD []) r.first r.last

/-- The rows grouped under company key `k`. -/
def companyGroup (rows : List Row) (k : Str) : List Row :=
  rows.filter (fun r => r.company == some k)

/-- Number of records of company `k` whose email passes
`validate_email_format` (the `valid_emails` counter of the analysis). -/
def validCount (rows : List Row) (k : Str) : Nat :=
  ((companyGroup rows k).filter (fun r => (validate_email_format r.email).1)).length

/-- Number of valid-email records of company `k` whose detected pattern is
`p`. -/
def patCount (rows : List Row) (k : Str) (p : Str) : Nat :=
  ((companyGroup rows k).filter
    (fun r => (validate_email_format r.email).1 && rowPattern r == p)).length

/-- Value of a key in an insertion-ordered counter dictionary (0 when
absent). -/
def lookupCount (p : Str) : List (Str × Nat) → Nat
  | [] => 0
  | (q, n) :: rest => if q = p then n else lookupCount p rest

/-- Claim-side raw score: the sum of the five field weights exactly as the
scorer accumulates them. -/
def rawScore (r : Row) : Int :=
  emailPts r + firstPts r + lastPts r + companyPts r + phonePts r

/-- Claim-side notion of the assigned pattern of the company of a record:
the entry of the (truthy) company key in the pattern map, if any. -/
def assignedPattern (r : Row) (pats : List (Str × PatInfo)) : Option PatInfo :=
  match r.company with
  | some c => if c = [] then none else lookupPat c pats
  | none => none

/-- Claim-side adjustment: `+10` when pattern checking is enabled, the
email is valid and the detected pattern matches the assigned pattern of
the company of the record; `-10` when (under the same enablement and
validity) the company has an assigned pattern the email does not match;
`0` otherwise. -/
def claimAdjustment (r : Row) (pats : List (Str × PatInfo)) (check : Bool) : Int :=
  if check = true ∧ (validate_email_format r.email).1 = true then
    match assignedPattern r pats with
    | some info => if rowPattern r = info.pattern then 10 else -10
    | none => 0
  else 0

/-- Modelled from the spec: the honorific set of the specification
(section 4.2).  `clean_first_name` in `src/app.py` contains no honorific
handling at all; this list exists only to state the claimed (and refuted)
behaviour. -/
def HONORIFICS : List Str :=
  [enc "dr", enc "dr.", enc "prof", enc "prof.", enc "sir", enc "mr",
   enc "mrs", enc "ms", enc "mx", enc "hon"]

/-- Claim-side duplicate relation of C6: identical trimmed emails (both
present), or identical name pairs with both names non-empty. -/
def claimDupRelated (a b : Row) : Bool :=
  (match a.email, b.email with
   | some e1, some e2 => pyStrip e1 == pyStrip e2
   | _, _ => false) ||
  (match a.first, a.last, b.first, b.last with
   | some f1, some l1, some f2, some l2 =>
     f1 == f2 && l1 == l2 && !f1.isEmpty && !l1.isEmpty
   | _, _, _, _ => false)

/-- Claim-side duplicate criterion of C6 at index `i`. -/
def claimDupAt (rows : List Row) (i : Nat) : Bool :=
  (List.range rows.length).any (fun j =>
    decide (j ≠ i) && claimDupRelated (rows.getD j dummyRow) (rows.getD i dummyRow))

/-- A concrete two-row dataset (one company, two valid pattern-conforming
emails) used to witness the consensus analysis. -/
def consensusRows : List Row :=
  [⟨some (enc "john"), some (enc "smith"), some (enc "acme"),
    some (enc "john.smith@x.co"), none, none⟩,
   ⟨some (enc "jane"), some (enc "smith"), some (enc "acme"),
    some (enc "jane.smith@x.co"), none, none⟩]

theorem enc_sanity : enc "Ab c" = [65, 98, 32, 99] := by decide

theorem pyTitle_sanity : pyTitle (enc "dr. rian") = enc "Dr. Rian" := by decide

theorem pySplit_sanity : pySplit (enc "  a bc ") = [enc "a", enc "bc"] := by decide

theorem email_sanity :
    validate_email_format (some (enc "a@mailinator.com")) = (false, enc "Disposable Email") ∧
    validate_email_format (some (enc "john.smith@acme.com")) = (true, enc "Valid") ∧
    validate_email_format (some (enc "bad@@x")) = (false, enc "Invalid Format") ∧
    validate_email_format none = (false, enc "Missing") := by decide

theorem detect_sanity :
    detect_email_pattern (enc "john.smith@acme.com") (some (enc "John")) (some (enc "Smith")) =
      enc "firstname.lastname" := by decide

theorem clean_company_sanity :
    clean_company (enc "Acme Group Inc") = enc "ACME" ∧
    clean_company (enc "acme widgets") = enc "Acme Widgets" ∧
    clean_company (enc "ibm") = enc "IBM" ∧
    clean_company (enc "in.c") = enc "INC" ∧
    clean_company (enc "INC") = enc "" := by decide

theorem analyze_sanity :
    analyze_company_email_patterns
      [⟨some (enc "john"), some (enc "smith"), some (enc "acme"),
        some (enc "john.smith@x.co"), none, none⟩,
       ⟨some (enc "jane"), some (enc "smith"), some (enc "acme"),
        some (enc "jane.smith@x.co"), none, none⟩] =
      [(enc "acme", ⟨enc "firstname.lastname", 2, 2⟩)] := by decide

theorem dup_sanity :
    find_duplicates
      [⟨some (enc "a"), some (enc "x"), none, some (enc "e@x.co"), none, none⟩,
       ⟨some (enc "b"), some (enc "y"), none, some (enc "e@x.co"), none, none⟩,
       ⟨some (enc "c"), some (enc "z"), none, some (enc "f@x.co"), none, none⟩] =
      [0, 1] ∧
    find_duplicates
      [⟨some (enc "a"), some (enc "x"), none, none, none, none⟩,
       ⟨some (enc "b"), some (enc "y"), none, none, none, none⟩] = [0, 1] := by decide

theorem score_sanity :
    calculate_data_quality_score
      ⟨some (enc "John"), some (enc "Smith"), some (enc "Acme"),
       some (enc "john.smith@x.co"), some (enc "1234567890"), none⟩
      [] false = 100 ∧
    calculate_data_quality_score
      ⟨some (enc "John"), some (enc "Smith"), some (enc "Acme"),
       some (enc "john.smith@x.co"), some (enc "1234567890"), none⟩
      [(enc "Acme", ⟨enc "firstname.lastname", 2, 2⟩)] true = 100 ∧
    calculate_data_quality_score
      ⟨some (enc "John"), some (enc "Smith"), some (enc "Acme"),
       some (enc "bob@x.co"), none, none⟩
      [(enc "Acme", ⟨enc "firstname.lastname", 2, 2⟩)] true = 75 := by decide

theorem clean_name_sanity :
    clean_first_name (enc "dr. rian") = enc "Dr." ∧
    clean_last_name (enc "mcdonald") = enc "McDonald" ∧
    infer_last_from_email (enc "John") (enc "john.smith@acme.com") = enc "Smith" ∧
    infer_last_from_email (enc "J") (enc "jsmith@acme.com") = enc "Smith" ∧
    clean_job_title (some (enc "sr. eng")) = enc "Senior Engineer" := by decide

/-- C3 (counterexample): the claim says company normalization of
"Acme Group Inc" returns exactly "Acme"; the code upper-cases the cleaned
string because its length is 4. -/
theorem clean_company_acme_not_mixed :
    clean_company (enc "Acme Group Inc") ≠ enc "Acme" := by decide

/-- C3 (amended): company normalization of "Acme Group Inc" removes the
suffix words "Group" and "Inc" case-insensitively as whole words and,
since the cleaned string "Acme" has length 4 (at most 4), renders it fully
upper-case: the result is exactly "ACME". -/
theorem clean_company_acme :
    clean_company (enc "Acme Group Inc") = enc "ACME" := by decide

/-- C4 (counterexample): `clean_first_name` does not drop the honorific
token: on "dr. rian" it returns "Dr." (the first token title-cased), not
"Rian", although "dr." is in the claimed honorific set and a second token
follows. -/
theorem clean_first_name_keeps_honorific :
    clean_first_name (enc "dr. rian") = enc "Dr." ∧
    HONORIFICS.contains (pyLower (enc "dr.")) = true ∧
    clean_first_name (enc "dr. rian") ≠ enc "Rian" := by decide

/-- C4 (amended): for every raw first-name string, normalization returns
the first whitespace token title-cased — honorific tokens are never
dropped (in particular `clean_first_name "dr. rian" = "Dr."`). -/
theorem clean_first_name_first_token (name t : Str) (rest : List Str)
    (h : pySplit (pyStrip name) = t :: rest) :
    clean_first_name name = pyTitle t := by
  have hne : pyStrip name ≠ [] := by
    intro h0
    rw [h0] at h
    simp [pySplit, splitAux] at h
  simp only [clean_first_name, if_neg hne, h]

/-- Witness for `clean_first_name_first_token` at the concrete input of
the claim. -/
theorem clean_first_name_first_token_witness :
    clean_first_name (enc "dr. rian") = pyTitle (enc "dr.") :=
  clean_first_name_first_token (enc "dr. rian") (enc "dr.") [enc "rian"] (by decide)

/-- C6 (counterexample): two records with empty first and last names and
different emails are both returned by `find_duplicates` (the pandas
duplicate test on the name columns does not require non-empty names),
although the claimed criterion does not relate them. -/
theorem find_duplicates_empty_names :
    0 ∈ find_duplicates
      [⟨some [], some [], none, some (enc "a@x.co"), none, none⟩,
       ⟨some [], some [], none, some (enc "b@y.co"), none, none⟩] ∧
    claimDupAt
      [⟨some [], some [], none, some (enc "a@x.co"), none, none⟩,
       ⟨some [], some [], none, some (enc "b@y.co"), none, none⟩] 0 = false := by decide

/-- C6 (amended): a record is returned by `find_duplicates` exactly when
some other record has the identical email cell (missing emails comparing
equal) or the identical (first name, last name) cell pair — emptiness of
the names is not required and no trimming is applied. -/
theorem find_duplicates_membership (rows : List Row) (i : Nat) (h : i < rows.length) :
    i ∈ find_duplicates rows ↔ dupAt rows i := by
  simp [find_duplicates, List.mem_filter, List.mem_range, h]

/-- Witness for `find_duplicates_membership`: two records sharing an email
are both reported. -/
theorem find_duplicates_membership_witness :
    0 ∈ find_duplicates
      [⟨none, none, none, some (enc "e@x.co"), none, none⟩,
       ⟨some (enc "q"), none, none, some (enc "e@x.co"), none, none⟩] :=
  (find_duplicates_membership _ 0 (by decide)).mpr (by decide)

/-- C7 (counterexample): company normalization is not idempotent: on
"in.c" the first pass removes the dot and upper-cases to "INC", and a
second pass removes "INC" as a legal-suffix word, yielding the empty
string. -/
theorem clean_company_not_idempotent :
    clean_company (clean_company (enc "in.c")) ≠ clean_company (enc "in.c") := by decide

/-- C10: two records whose email cells are both missing (NaN) are reported
as duplicates of each other by `find_duplicates`, even though every other
field differs (pandas `duplicated` treats NaN keys as equal). -/
theorem find_duplicates_missing_emails :
    find_duplicates
      [⟨some (enc "a"), some (enc "x"), some (enc "c1"), none, some (enc "111"), some (enc "t1")⟩,
       ⟨some (enc "b"), some (enc "y"), some (enc "c2"), none, some (enc "222"), some (enc "t2")⟩] =
      [0, 1] := by decide

theorem wsN_loC (n : Nat) : wsN (loC n) = wsN n := by
  rw [Bool.eq_iff_iff]
  simp only [loC, isUpperN, Bool.and_eq_true, decide_eq_true_eq]
  split_ifs with h
  · simp only [wsN, Bool.or_eq_true, beq_iff_eq]
    omega
  · rfl

theorem wsN_upC (n : Nat) : wsN (upC n) = wsN n := by
  rw [Bool.eq_iff_iff]
  simp only [upC, isLowerN, Bool.and_eq_true, decide_eq_true_eq]
  split_ifs with h
  · simp only [wsN, Bool.or_eq_true, beq_iff_eq]
    omega
  · rfl

theorem isAlphaN_loC (n : Nat) : isAlphaN (loC n) = isAlphaN n := by
  rw [Bool.eq_iff_iff]
  simp only [loC, isUpperN, isAlphaN, isLowerN, Bool.and_eq_true, Bool.or_eq_true,
    decide_eq_true_eq]
  split_ifs with h <;> omega

theorem isAlphaN_upC (n : Nat) : isAlphaN (upC n) = isAlphaN n := by
  rw [Bool.eq_iff_iff]
  simp only [upC, isUpperN, isAlphaN, isLowerN, Bool.and_eq_true, Bool.or_eq_true,
    decide_eq_true_eq]
  split_ifs with h <;> omega

theorem loC_loC (n : Nat) : loC (loC n) = loC n := by
  simp only [loC, isUpperN, Bool.and_eq_true, decide_eq_true_eq]
  split_ifs with h1 h2 <;> omega

theorem upC_upC (n : Nat) : upC (upC n) = upC n := by
  simp only [upC, isLowerN, Bool.and_eq_true, decide_eq_true_eq]
  split_ifs with h1 h2 <;> omega

theorem loC_upC (n : Nat) : loC (upC n) = loC n := by
  simp only [upC, loC, isLowerN, isUpperN, Bool.and_eq_true, decide_eq_true_eq]
  split_ifs with h1 h2 h3 <;> omega

theorem pyTitleAux_length (p : Bool) (s : Str) : (pyTitleAux p s).length = s.length := by
  induction s generalizing p with
  | nil => rfl
  | cons c rest ih => simp [pyTitleAux, ih]

theorem pyTitleAux_idem (p : Bool) (s : Str) :
    pyTitleAux p (pyTitleAux p s) = pyTitleAux p s := by
  induction s generalizing p with
  | nil => rfl
  | cons c rest ih =>
    simp only [pyTitleAux]
    by_cases hc : isAlphaN c = true
    · by_cases hp : p = true
      · subst hp
        simp only [hc, if_true, pyTitleAux, isAlphaN_loC, loC_loC, ih]
      · have hp' : p = false := by simpa using hp
        subst hp'
        simp only [hc, if_true, Bool.false_eq_true, if_false, pyTitleAux,
          isAlphaN_upC, upC_upC, ih]
    · have hc' : isAlphaN c = false := by simpa using hc
      simp only [hc', Bool.false_eq_true, if_false, pyTitleAux, ih]

theorem pyLower_pyTitleAux (p : Bool) (s : Str) :
    pyLower (pyTitleAux p s) = pyLower s := by
  induction s generalizing p with
  | nil => rfl
  | cons c rest ih =>
    simp only [pyTitleAux, pyLower, List.map_cons] at ih ⊢
    rw [ih]
    by_cases hc : isAlphaN c = true
    · by_cases hp : p = true <;> simp_all [loC_loC, loC_upC]
    · simp_all

theorem wsN_pyTitleAux (p : Bool) (s : Str) (hws : ∀ c ∈ s, wsN c = false) :
    ∀ c ∈ pyTitleAux p s, wsN c = false := by
  induction s generalizing p with
  | nil => simp [pyTitleAux]
  | cons c rest ih =>
    intro d hd
    simp only [pyTitleAux, List.mem_cons] at hd
    rcases hd with hd | hd
    · subst hd
      have hc := hws c (by simp)
      split_ifs <;> simp [wsN_loC, wsN_upC, hc]
    · exact ih _ (fun e he => hws e (by simp [he])) d hd

theorem splitAux_append_run (t : Str) (hws : ∀ c ∈ t, wsN c = false) :
    ∀ (s cur : Str), splitAux (t ++ s) cur = splitAux s (cur ++ t) := by
  induction t with
  | nil => simp
  | cons c t' ih =>
    intro s cur
    have hc : wsN c = false := hws c (by simp)
    simp only [List.cons_append, splitAux, hc, Bool.false_eq_true, if_false,
      List.append_eq]
    rw [ih (fun e he => hws e (by simp [he])) s (cur ++ [c])]
    simp

theorem splitAux_ws (s cur : Str) (c : Nat) (hc : wsN c = true) :
    splitAux (c :: s) cur =
      if cur.isEmpty then splitAux s [] else cur :: splitAux s [] := by
  simp [splitAux, hc]

theorem splitAux_tokens (s : Str) :
    ∀ cur : Str, (∀ c ∈ cur, wsN c = false) →
      ∀ t ∈ splitAux s cur, t ≠ [] ∧ ∀ c ∈ t, wsN c = false := by
  induction s with
  | nil =>
    intro cur hcur t ht
    by_cases he : cur.isEmpty = true
    · simp [splitAux, he] at ht
    · simp only [splitAux, he, Bool.false_eq_true, if_false, List.mem_singleton] at ht
      subst ht
      exact ⟨fun h0 => by simp [h0] at he, hcur⟩
  | cons c rest ih =>
    intro cur hcur t ht
    by_cases hc : wsN c = true
    · rw [splitAux_ws rest cur c hc] at ht
      by_cases he : cur.isEmpty = true
      · rw [if_pos he] at ht
        exact ih [] (by simp) t ht
      · rw [if_neg he] at ht
        rcases List.mem_cons.mp ht with h1 | h1
        · subst h1
          exact ⟨fun h0 => by simp [h0] at he, hcur⟩
        · exact ih [] (by simp) t h1
    · have hc' : wsN c = false := by simpa using hc
      simp only [splitAux, hc', Bool.false_eq_true, if_false] at ht
      refine ih (cur ++ [c]) ?_ t ht
      intro e he
      rcases List.mem_append.mp he with h1 | h1
      · exact hcur e h1
      · simp only [List.mem_singleton] at h1
        subst h1
        exact hc'

theorem joinSp_cons_decomp (t : Str) (ts : List Str) : ∃ u, joinSp (t :: ts) = t ++ u := by
  cases ts with
  | nil => exact ⟨[], by simp [joinSp]⟩
  | cons t' ts' => exact ⟨32 :: joinSp (t' :: ts'), rfl⟩

theorem pySplit_joinSp (ts : List Str)
    (h : ∀ t ∈ ts, t ≠ [] ∧ ∀ c ∈ t, wsN c = false) :
    ts ≠ [] → pySplit (joinSp ts) = ts := by
  induction ts with
  | nil => intro hne; exact absurd rfl hne
  | cons t ts' ih =>
    intro _
    obtain ⟨ht, hws⟩ := h t (by simp)
    cases ts' with
    | nil =>
      show splitAux (joinSp [t]) [] = [t]
      have h1 := splitAux_append_run t hws [] []
      simp only [List.append_nil, List.nil_append] at h1
      simp only [joinSp, h1, splitAux]
      simp [List.isEmpty_iff, ht]
    | cons t2 ts2 =>
      show splitAux (joinSp (t :: t2 :: ts2)) [] = t :: t2 :: ts2
      have h1 := splitAux_append_run t hws (32 :: joinSp (t2 :: ts2)) []
      simp only [List.nil_append] at h1
      rw [show joinSp (t :: t2 :: ts2) = t ++ 32 :: joinSp (t2 :: ts2) from rfl, h1,
        splitAux_ws _ _ 32 (by decide), if_neg (by simp [List.isEmpty_iff, ht])]
      congr 1
      exact ih (fun t' ht' => h t' (by simp [ht'])) (by simp)

theorem dropWhile_length_le_self (p : Nat → Bool) (l : Str) :
    (l.dropWhile p).length ≤ l.length := by
  induction l with
  | nil => simp
  | cons c rest ih =>
    rw [List.dropWhile_cons]
    split_ifs
    · exact le_trans ih (by simp)
    · simp

theorem all_nonws_dropWhile (l : Str) (h : ∀ c ∈ l, wsN c = false) :
    l.dropWhile wsN = l := by
  cases l with
  | nil => rfl
  | cons c rest =>
    rw [List.dropWhile_cons, if_neg]
    simp [h c (by simp)]

theorem dropWhile_append_self (l₁ l₂ : Str) (hne : l₁ ≠ [])
    (h : l₁.dropWhile wsN = l₁) : (l₁ ++ l₂).dropWhile wsN = l₁ ++ l₂ := by
  cases l₁ with
  | nil => exact absurd rfl hne
  | cons c rest =>
    have hc : wsN c = false := by
      rw [List.dropWhile_cons] at h
      by_cases hcw : wsN c = true
      · rw [if_pos hcw] at h
        have h1 := congrArg List.length h
        have h2 := dropWhile_length_le_self wsN rest
        simp at h1
        omega
      · simpa using hcw
    rw [List.cons_append, List.dropWhile_cons, if_neg (by simp [hc])]

theorem joinSp_dropWhile (ts : List Str)
    (h : ∀ t ∈ ts, t ≠ [] ∧ ∀ c ∈ t, wsN c = false) :
    (joinSp ts).dropWhile wsN = joinSp ts := by
  cases ts with
  | nil => rfl
  | cons t ts' =>
    obtain ⟨u, hu⟩ := joinSp_cons_decomp t ts'
    obtain ⟨ht, hws⟩ := h t (by simp)
    rw [hu]
    apply dropWhile_append_self t u ht (all_nonws_dropWhile t hws)

theorem joinSp_reverse_dropWhile (ts : List Str)
    (h : ∀ t ∈ ts, t ≠ [] ∧ ∀ c ∈ t, wsN c = false) :
    (joinSp ts).reverse.dropWhile wsN = (joinSp ts).reverse := by
  induction ts with
  | nil => rfl
  | cons t ts' ih =>
    obtain ⟨ht, hws⟩ := h t (by simp)
    cases ts' with
    | nil =>
      apply all_nonws_dropWhile
      intro c hc
      exact hws c (List.mem_reverse.mp hc)
    | cons t2 ts2 =>
      have hJ := ih (fun t' ht' => h t' (by simp [ht']))
      have hJne : (joinSp (t2 :: ts2)).reverse ≠ [] := by
        obtain ⟨u2, hu2⟩ := joinSp_cons_decomp t2 ts2
        obtain ⟨ht2, _⟩ := h t2 (by simp)
        rw [hu2]
        cases t2 with
        | nil => exact absurd rfl ht2
        | cons d rest => simp
      have hmain :
          ((joinSp (t2 :: ts2)).reverse ++ (32 :: t.reverse)).dropWhile wsN =
            (joinSp (t2 :: ts2)).reverse ++ (32 :: t.reverse) :=
        dropWhile_append_self _ _ hJne hJ
      rw [show joinSp (t :: t2 :: ts2) = t ++ 32 :: joinSp (t2 :: ts2) from rfl]
      rw [List.reverse_append, List.reverse_cons]
      rw [List.append_assoc]
      simpa using hmain

theorem mcPart_ne_nil_nonws (t : Str) (ht : t ≠ []) (hws : ∀ c ∈ t, wsN c = false) :
    mcPart t ≠ [] ∧ ∀ c ∈ mcPart t, wsN c = false := by
  unfold mcPart
  split_ifs with h
  · constructor
    · simp [enc]
    · intro c hc
      rcases List.mem_append.mp hc with h1 | h1
      · have h2 : c = 77 ∨ c = 99 := by simpa [enc] using h1
        rcases h2 with h2 | h2 <;> subst h2 <;> decide
      · exact wsN_pyTitleAux false _
          (fun e he => hws e (List.mem_of_mem_drop he)) c h1
  · constructor
    · intro h0
      have hl := pyTitleAux_length false t
      rw [show pyTitle t = pyTitleAux false t from rfl] at h0
      rw [h0] at hl
      cases t with
      | nil => exact ht rfl
      | cons a l => simp at hl
    · exact wsN_pyTitleAux false t hws

theorem mcPart_idem (t : Str) : mcPart (mcPart t) = mcPart t := by
  by_cases h : [109, 99].isPrefixOf (pyLower t) = true ∧ 2 < t.length
  · have hval : mcPart t = enc "Mc" ++ pyTitle (t.drop 2) := by
      rw [mcPart, if_pos h]
    have hmc2 : (enc "Mc").length = 2 := by decide
    have hpre : [109, 99].isPrefixOf (pyLower (enc "Mc" ++ pyTitle (t.drop 2))) = true := by
      rw [pyLower, List.map_append]
      have hlo : (enc "Mc").map loC = [109, 99] := by decide
      rw [hlo]
      simp [List.isPrefixOf]
    have hlen : 2 < (enc "Mc" ++ pyTitle (t.drop 2)).length := by
      rw [List.length_append, hmc2,
        show pyTitle (t.drop 2) = pyTitleAux false (t.drop 2) from rfl,
        pyTitleAux_length, List.length_drop]
      omega
    rw [hval, mcPart, if_pos ⟨hpre, hlen⟩]
    congr 1
    rw [show (enc "Mc" ++ pyTitle (t.drop 2)).drop 2 = pyTitle (t.drop 2) from by
      rw [← hmc2, List.drop_left]]
    exact pyTitleAux_idem false _
  · have hval : mcPart t = pyTitle t := by rw [mcPart, if_neg h]
    have hng : ¬([109, 99].isPrefixOf (pyLower (pyTitle t)) = true ∧ 2 < (pyTitle t).length) := by
      intro hcon
      apply h
      obtain ⟨hp, hl⟩ := hcon
      rw [show pyTitle t = pyTitleAux false t from rfl] at hp hl
      rw [pyLower_pyTitleAux false t] at hp
      rw [pyTitleAux_length] at hl
      exact ⟨hp, hl⟩
    rw [hval, mcPart, if_neg hng]
    exact pyTitleAux_idem false t

/-- C7 (amended, part for last names): last-name normalization is
idempotent for every text `x`:
`clean_last_name (clean_last_name x) = clean_last_name x`.  (Company
normalization is not idempotent: the counterexample above shows two
passes over "in.c" disagree.) -/
theorem clean_last_name_idempotent (x : Str) :
    clean_last_name (clean_last_name x) = clean_last_name x := by
  by_cases h0 : pyStrip x = []
  · have hx : clean_last_name x = [] := by
      simp only [clean_last_name, if_pos h0]
    rw [hx]
    decide
  · have htokfacts : ∀ t ∈ pySplit (pyStrip x), t ≠ [] ∧ ∀ c ∈ t, wsN c = false :=
      fun t ht => splitAux_tokens (pyStrip x) [] (by simp) t ht
    have hcl : clean_last_name x = joinSp ((pySplit (pyStrip x)).map mcPart) := by
      simp only [clean_last_name, if_neg h0]
    cases hts : pySplit (pyStrip x) with
    | nil =>
      rw [hcl, hts]
      decide
    | cons t ts' =>
      have hmfacts : ∀ m ∈ (t :: ts').map mcPart, m ≠ [] ∧ ∀ c ∈ m, wsN c = false := by
        intro m hm
        obtain ⟨u, hu, hequ⟩ := List.mem_map.mp hm
        obtain ⟨hu1, hu2⟩ := htokfacts u (hts ▸ hu)
        rw [← hequ]
        exact mcPart_ne_nil_nonws u hu1 hu2
      have hstrip : pyStrip (joinSp ((t :: ts').map mcPart)) = joinSp ((t :: ts').map mcPart) := by
        unfold pyStrip
        rw [joinSp_dropWhile _ hmfacts, joinSp_reverse_dropWhile _ hmfacts,
          List.reverse_reverse]
      have hne2 : joinSp ((t :: ts').map mcPart) ≠ [] := by
        rw [List.map_cons]
        obtain ⟨u, hu⟩ := joinSp_cons_decomp (mcPart t) (ts'.map mcPart)
        rw [hu]
        have hmtne := (hmfacts (mcPart t) (by simp)).1
        cases hmt : mcPart t with
        | nil => exact absurd hmt hmtne
        | cons a l => simp
      rw [hcl, hts]
      simp only [clean_last_name, hstrip, if_neg hne2]
      rw [pySplit_joinSp _ hmfacts (by simp), List.map_map]
      congr 1
      exact List.map_congr_left (fun a _ => mcPart_idem a)

theorem tallyStep_eq (acc : List (Str × Nat) × Nat) (r : Row) :
    tallyStep acc r =
      if (validate_email_format r.email).1 = true then
        (bumpCount acc.1 (rowPattern r), acc.2 + 1)
      else acc := by
  cases hr : r.email with
  | none => simp [tallyStep, hr, validate_email_format]
  | some e =>
    simp only [tallyStep, hr]
    by_cases hs : pyStrip e = []
    · have hv : (validate_email_format (some e)).1 = false := by
        by_cases he : e = []
        · subst he
          decide
        · have hie : e.isEmpty = false := by simpa [List.isEmpty_iff] using he
          simp [validate_email_format, hie, hs]
      rw [if_pos hs, hv]
      simp
    · rw [if_neg hs]
      by_cases hv : (validate_email_format (some e)).1 = true
      · simp [hv, rowPattern, hr]
      · have hv' : (validate_email_format (some e)).1 = false := by simpa using hv
        simp [hv']

theorem foldl_tally_snd (g : List Row) (acc : List (Str × Nat) × Nat) :
    (g.foldl tallyStep acc).2 =
      acc.2 + (g.filter (fun r => (validate_email_format r.email).1)).length := by
  induction g generalizing acc with
  | nil => simp
  | cons r g ih =>
    rw [List.foldl_cons, tallyStep_eq]
    by_cases hv : (validate_email_format r.email).1 = true
    · rw [if_pos hv, ih, List.filter_cons_of_pos (by simpa using hv)]
      simp
      omega
    · have hv' : (validate_email_format r.email).1 = false := by simpa using hv
      rw [if_neg (by simp [hv']), ih, List.filter_cons_of_neg (by simp [hv'])]

theorem lookupCount_bump (l : List (Str × Nat)) (p q : Str) :
    lookupCount p (bumpCount l q) = lookupCount p l + (if q = p then 1 else 0) := by
  induction l with
  | nil => simp [bumpCount, lookupCount]
  | cons e rest ih =>
    obtain ⟨a, n⟩ := e
    simp only [bumpCount]
    by_cases haq : a = q
    · subst haq
      rw [if_pos rfl]
      simp only [lookupCount]
      by_cases hap : a = p
      · subst hap
        simp
      · simp [hap]
    · rw [if_neg haq]
      simp only [lookupCount]
      by_cases hap : a = p
      · subst hap
        simp
        exact fun hqp : q = a => haq hqp.symm
      · simp [hap, ih]

theorem foldl_tally_counts (g : List Row) (acc : List (Str × Nat) × Nat) (p : Str) :
    lookupCount p (g.foldl tallyStep acc).1 =
      lookupCount p acc.1 +
        (g.filter (fun r =>
          (validate_email_format r.email).1 && rowPattern r == p)).length := by
  induction g generalizing acc with
  | nil => simp
  | cons r g ih =>
    rw [List.foldl_cons, tallyStep_eq]
    by_cases hv : (validate_email_format r.email).1 = true
    · rw [if_pos hv, ih, lookupCount_bump]
      by_cases hp : rowPattern r = p
      · rw [List.filter_cons_of_pos (by simp [hv, hp]), if_pos hp]
        simp
        omega
      · rw [List.filter_cons_of_neg (by simp [hv, hp]), if_neg hp]
        simp
    · have hv' : (validate_email_format r.email).1 = false := by simpa using hv
      rw [if_neg (by simp [hv']), ih, List.filter_cons_of_neg (by simp [hv'])]

theorem pickMax_mem (e : Str × Nat) (l : List (Str × Nat)) : pickMax e l ∈ e :: l := by
  induction l generalizing e with
  | nil => simp [pickMax]
  | cons q rest ih =>
    simp only [pickMax]
    rcases List.mem_cons.mp (ih (if e.2 < q.2 then q else e)) with h1 | h1
    · rw [h1]
      split_ifs <;> simp
    · simp [List.mem_cons.mpr (Or.inr (List.mem_cons.mpr (Or.inr h1)))]

theorem pickMax_ge (e : Str × Nat) (l : List (Str × Nat)) :
    ∀ q ∈ e :: l, q.2 ≤ (pickMax e l).2 := by
  induction l generalizing e with
  | nil =>
    intro q hq
    rw [List.mem_singleton] at hq
    subst hq
    exact le_refl _
  | cons b rest ih =>
    intro q hq
    simp only [pickMax]
    have hhead : (if e.2 < b.2 then b else e).2 ≤ (pickMax (if e.2 < b.2 then b else e) rest).2 :=
      ih _ _ (List.mem_cons_self _ _)
    have hstep : e.2 ≤ (if e.2 < b.2 then b else e).2 ∧ b.2 ≤ (if e.2 < b.2 then b else e).2 := by
      split_ifs <;> constructor <;> omega
    rcases List.mem_cons.mp hq with h1 | h1
    · subst h1
      exact le_trans hstep.1 hhead
    · rcases List.mem_cons.mp h1 with h2 | h2
      · subst h2
        exact le_trans hstep.2 hhead
      · exact ih _ q (List.mem_cons.mpr (Or.inr h2))

theorem lookupCount_cases (p : Str) (l : List (Str × Nat)) :
    lookupCount p l = 0 ∨ (p, lookupCount p l) ∈ l := by
  induction l with
  | nil => exact Or.inl rfl
  | cons e rest ih =>
    obtain ⟨a, n⟩ := e
    simp only [lookupCount]
    by_cases hap : a = p
    · subst hap
      rw [if_pos rfl]
      exact Or.inr (by simp)
    · rw [if_neg hap]
      rcases ih with h | h
      · exact Or.inl h
      · exact Or.inr (List.mem_cons.mpr (Or.inr h))

theorem bumpCount_keys (l : List (Str × Nat)) (q : Str) :
    ∀ e ∈ bumpCount l q, e.1 ∈ l.map Prod.fst ∨ e.1 = q := by
  induction l with
  | nil =>
    intro e he
    simp only [bumpCount, List.mem_singleton] at he
    subst he
    exact Or.inr rfl
  | cons a rest ih =>
    obtain ⟨a1, a2⟩ := a
    intro e he
    simp only [bumpCount] at he
    by_cases haq : a1 = q
    · rw [if_pos haq] at he
      rcases List.mem_cons.mp he with h1 | h1
      · subst h1
        exact Or.inl (by simp)
      · exact Or.inl (by simp [List.mem_map.mpr ⟨e, h1, rfl⟩])
    · rw [if_neg haq] at he
      rcases List.mem_cons.mp he with h1 | h1
      · subst h1
        exact Or.inl (by simp)
      · rcases ih e h1 with h2 | h2
        · exact Or.inl (by simp [h2])
        · exact Or.inr h2

theorem bumpCount_pairwise (l : List (Str × Nat)) (q : Str)
    (h : l.Pairwise (fun a b => a.1 ≠ b.1)) :
    (bumpCount l q).Pairwise (fun a b => a.1 ≠ b.1) := by
  induction l with
  | nil => simp [bumpCount]
  | cons a rest ih =>
    obtain ⟨a1, a2⟩ := a
    rcases List.pairwise_cons.mp h with ⟨h1, h2⟩
    simp only [bumpCount]
    by_cases haq : a1 = q
    · rw [if_pos haq]
      exact List.pairwise_cons.mpr ⟨h1, h2⟩
    · rw [if_neg haq]
      refine List.pairwise_cons.mpr ⟨?_, ih h2⟩
      intro e he
      rcases bumpCount_keys rest q e he with hk | hk
      · obtain ⟨b, hb, hbe⟩ := List.mem_map.mp hk
        rw [← hbe]
        exact h1 b hb
      · rw [hk]
        exact haq

theorem pairwise_lookupCount (l : List (Str × Nat))
    (h : l.Pairwise (fun a b => a.1 ≠ b.1)) :
    ∀ e ∈ l, lookupCount e.1 l = e.2 := by
  induction l with
  | nil => simp
  | cons a rest ih =>
    obtain ⟨a1, a2⟩ := a
    rcases List.pairwise_cons.mp h with ⟨h1, h2⟩
    intro e he
    rcases List.mem_cons.mp he with h3 | h3
    · subst h3
      simp [lookupCount]
    · have hne : a1 ≠ e.1 := h1 e h3
      simp only [lookupCount, if_neg hne]
      exact ih h2 e h3

theorem foldl_tally_pairwise (g : List Row) (acc : List (Str × Nat) × Nat)
    (h : acc.1.Pairwise (fun a b => a.1 ≠ b.1)) :
    (g.foldl tallyStep acc).1.Pairwise (fun a b => a.1 ≠ b.1) := by
  induction g generalizing acc with
  | nil => exact h
  | cons r g ih =>
    rw [List.foldl_cons, tallyStep_eq]
    split_ifs with hv
    · exact ih _ (bumpCount_pairwise _ _ h)
    · exact ih _ h

/-- C2: every company present in the mapping produced by
`analyze_company_email_patterns` had at least 2 records with valid emails;
the recorded total is exactly that valid-email count, the recorded count
is the genuine number of valid-email records detected with the recorded
pattern, it is at least half of the total (coverage at least 50%), and it
is maximal among all pattern counts of the company — so the recorded
pattern is a most common one.  Consequently (contrapositive) a company
with fewer than 2 valid-email records, or whose most common pattern
covers less than half of its valid emails, is absent from the mapping. -/
theorem analyze_company_consensus (rows : List Row) (k : Str) (info : PatInfo)
    (h : (k, info) ∈ analyze_company_email_patterns rows) :
    2 ≤ validCount rows k ∧ info.total = validCount rows k ∧
      info.count = patCount rows k info.pattern ∧
      2 * info.count ≥ info.total ∧ ∀ p : Str, patCount rows k p ≤ info.count := by
  obtain ⟨k', hk', hmap⟩ := List.mem_filterMap.mp h
  cases hp : processCompany rows k' with
  | none =>
    rw [hp] at hmap
    simp at hmap
  | some info' =>
    rw [hp] at hmap
    simp only [Option.map_some', Option.some.injEq, Prod.mk.injEq] at hmap
    obtain ⟨hk1, hk2⟩ := hmap
    subst hk1
    subst hk2
    simp only [processCompany] at hp
    by_cases hlen : (List.filter (fun r => r.company == some k') rows).length < 2
    · rw [if_pos hlen] at hp
      exact absurd hp (by simp)
    rw [if_neg hlen] at hp
    by_cases hstrip : pyStrip k' = []
    · rw [if_pos hstrip] at hp
      exact absurd hp (by simp)
    rw [if_neg hstrip] at hp
    by_cases hv2 : 2 ≤ (List.foldl tallyStep ([], 0)
        (List.filter (fun r => r.company == some k') rows)).2
    · rw [if_pos hv2] at hp
      have hvc : (List.foldl tallyStep ([], 0)
          (List.filter (fun r => r.company == some k') rows)).2 = validCount rows k' := by
        rw [foldl_tally_snd]
        simp [validCount, companyGroup]
      have hpc : ∀ p : Str, patCount rows k' p =
          lookupCount p (List.foldl tallyStep ([], 0)
            (List.filter (fun r => r.company == some k') rows)).1 := by
        intro p
        rw [foldl_tally_counts]
        simp [patCount, companyGroup, lookupCount]
      split at hp
      · exact absurd hp (by simp)
      · rename_i e rest heq
        by_cases hcov : 2 * (pickMax e rest).2 ≥ (List.foldl tallyStep ([], 0)
            (List.filter (fun r => r.company == some k') rows)).2
        · rw [if_pos hcov] at hp
          have hinfo := Option.some.inj hp
          have hpw : (List.foldl tallyStep ([], 0)
              (List.filter (fun r => r.company == some k') rows)).1.Pairwise
                (fun a b => a.1 ≠ b.1) :=
            foldl_tally_pairwise _ ([], 0) (by simp)
          rw [heq] at hpw
          rw [← hinfo]
          refine ⟨?_, ?_, ?_, ?_, ?_⟩
          · rw [← hvc]
            exact hv2
          · exact hvc
          · show (pickMax e rest).2 = patCount rows k' (pickMax e rest).1
            rw [hpc (pickMax e rest).1, heq]
            exact (pairwise_lookupCount (e :: rest) hpw _ (pickMax_mem e rest)).symm
          · exact hcov
          · intro p
            rw [hpc p, heq]
            rcases lookupCount_cases p (e :: rest) with h0 | hmem
            · rw [h0]
              exact Nat.zero_le _
            · exact pickMax_ge e rest _ hmem
        · rw [if_neg hcov] at hp
          exact absurd hp (by simp)
    · rw [if_neg hv2] at hp
      exact absurd hp (by simp)

/-- Witness for `analyze_company_consensus` on the concrete dataset
`consensusRows`: the company "acme" is assigned the pattern
`firstname.lastname` with count 2 of total 2. -/
theorem analyze_company_consensus_witness :
    2 ≤ validCount consensusRows (enc "acme") ∧
    (⟨enc "firstname.lastname", 2, 2⟩ : PatInfo).total = validCount consensusRows (enc "acme") ∧
    (⟨enc "firstname.lastname", 2, 2⟩ : PatInfo).count =
      patCount consensusRows (enc "acme")
        (⟨enc "firstname.lastname", 2, 2⟩ : PatInfo).pattern ∧
    2 * (⟨enc "firstname.lastname", 2, 2⟩ : PatInfo).count ≥
      (⟨enc "firstname.lastname", 2, 2⟩ : PatInfo).total ∧
    patCount consensusRows (enc "acme") (enc "other") ≤
      (⟨enc "firstname.lastname", 2, 2⟩ : PatInfo).count := by
  have h := analyze_company_consensus consensusRows (enc "acme")
    ⟨enc "firstname.lastname", 2, 2⟩ (by decide)
  exact ⟨h.1, h.2.1, h.2.2.1, h.2.2.2.1, h.2.2.2.2 (enc "other")⟩

theorem valid_email_truthy (e : Option Str) (h : (validate_email_format e).1 = true) :
    truthyCell e = true := by
  cases e with
  | none =>
    have hf : (validate_email_format (none : Option Str)).1 = false := by decide
    rw [hf] at h
    exact absurd h (by simp)
  | some s =>
    cases s with
    | nil =>
      have hf : (validate_email_format (some ([] : Str))).1 = false := by decide
      rw [hf] at h
      exact absurd h (by simp)
    | cons a l => simp [truthyCell]

theorem lookupPat_mem (c : Str) (pats : List (Str × PatInfo)) (info : PatInfo)
    (h : lookupPat c pats = some info) : ∃ e ∈ pats, e.2 = info := by
  unfold lookupPat at h
  cases hf : pats.find? (fun e => e.1 == c) with
  | none =>
    rw [hf] at h
    simp at h
  | some e =>
    rw [hf] at h
    simp only [Option.map_some', Option.some.injEq] at h
    exact ⟨e, List.mem_of_find?_eq_some hf, h⟩

theorem lookupPat_ne_nil (c : Str) (pats : List (Str × PatInfo)) (info : PatInfo)
    (h : lookupPat c pats = some info) : pats ≠ [] := by
  intro h0
  subst h0
  simp [lookupPat] at h

theorem emailBonus_eq_claimAdjustment (r : Row) (pats : List (Str × PatInfo)) (check : Bool)
    (h : ∀ e ∈ pats, e.2.pattern ≠ []) :
    emailBonus r pats check = claimAdjustment r pats check := by
  by_cases hv : (validate_email_format r.email).1 = true
  · have ht : truthyCell r.email = true := valid_email_truthy r.email hv
    by_cases hc : check = true
    · subst hc
      cases hcomp : r.company with
      | none =>
        simp [emailBonus, claimAdjustment, assignedPattern, ht, hv, hcomp]
      | some c =>
        by_cases hcnil : c = []
        · subst hcnil
          simp [emailBonus, claimAdjustment, assignedPattern, ht, hv, hcomp, truthyCell]
        · cases hlp : lookupPat c pats with
          | none =>
            simp [emailBonus, claimAdjustment, assignedPattern, ht, hv, hcomp, hlp, hcnil]
          | some info =>
            have hpn : pats ≠ [] := lookupPat_ne_nil c pats info hlp
            have hie : c.isEmpty = false := by simpa [List.isEmpty_iff] using hcnil
            by_cases hmatch : rowPattern r = info.pattern
            · simp only [rowPattern] at hmatch
              simp [emailBonus, claimAdjustment, assignedPattern, check_email_pattern_match,
                rowPattern, ht, hv, hcomp, hlp, hcnil, hie, hpn, truthyCell, hmatch]
              exact ht
            · have hne : info.pattern ≠ [] := by
                obtain ⟨e, hmem, hei⟩ := lookupPat_mem c pats info hlp
                exact hei ▸ h e hmem
              simp only [rowPattern] at hmatch
              simp [emailBonus, claimAdjustment, assignedPattern, check_email_pattern_match,
                rowPattern, ht, hv, hcomp, hlp, hcnil, hie, hpn, truthyCell, hmatch, hne]
              exact ht
    · have hc' : check = false := by simpa using hc
      subst hc'
      simp [emailBonus, claimAdjustment, ht, hv]
  · have hv' : (validate_email_format r.email).1 = false := by simpa using hv
    simp [emailBonus, claimAdjustment, hv']

/-- C1: for every record, pattern map and enablement flag (over pattern
maps whose assigned patterns are non-empty strings, as all patterns
produced by the analysis are), the quality score equals
`clamp(raw_score + adjustment, 0, 100)` where `raw_score` is the sum of
the five field weights (email 30, first name 20, last name 20, company 15,
phone 15) and the adjustment is `+10` for an enabled, valid, matching
pattern, `-10` for an assigned pattern the valid email does not match, `0`
otherwise; in particular the returned score always lies in `[0, 100]`. -/
theorem quality_score_formula (r : Row) (pats : List (Str × PatInfo)) (check : Bool)
    (h : ∀ e ∈ pats, e.2.pattern ≠ []) :
    calculate_data_quality_score r pats check =
      max 0 (min 100 (rawScore r + claimAdjustment r pats check)) ∧
    0 ≤ calculate_data_quality_score r pats check ∧
    calculate_data_quality_score r pats check ≤ 100 := by
  have hb : emailBonus r pats check = claimAdjustment r pats check :=
    emailBonus_eq_claimAdjustment r pats check h
  refine ⟨?_, ?_, ?_⟩
  · rw [calculate_data_quality_score, rawScore, hb]
  · exact le_max_left 0 _
  · exact max_le (by norm_num) (min_le_left _ _)

/-- Witness for `quality_score_formula` at a concrete record and a
concrete one-company pattern map. -/
theorem quality_score_formula_witness :
    calculate_data_quality_score
        ⟨some (enc "John"), some (enc "Smith"), some (enc "Acme"),
         some (enc "bob@x.co"), none, none⟩
        [(enc "Acme", ⟨enc "firstname.lastname", 2, 2⟩)] true =
      max 0 (min 100 (rawScore
        ⟨some (enc "John"), some (enc "Smith"), some (enc "Acme"),
         some (enc "bob@x.co"), none, none⟩ +
        claimAdjustment
          ⟨some (enc "John"), some (enc "Smith"), some (enc "Acme"),
           some (enc "bob@x.co"), none, none⟩
          [(enc "Acme", ⟨enc "firstname.lastname", 2, 2⟩)] true)) :=
  (quality_score_formula _ _ true (by decide)).1

/-- C5: last-name inference from email returns absent (empty) whenever the
email or the first name is empty; otherwise, when the lowered local part
matches first name + optional single separator (., _, -) + letters, it
returns the captured letters title-cased; in particular
`infer_last_from_email "John" "john.smith@acme.com" = "Smith"` and
`infer_last_from_email "J" "jsmith@acme.com" = "Smith"`. -/
theorem infer_last_spec (firstName email cap : Str) :
    ((email = [] ∨ firstName = []) → infer_last_from_email firstName email = []) ∧
    (email ≠ [] → firstName ≠ [] →
      localTail (pyLower firstName) (pyLower (email.takeWhile (fun c => c != 64))) = some cap →
      infer_last_from_email firstName email = pyTitle cap) ∧
    infer_last_from_email (enc "John") (enc "john.smith@acme.com") = enc "Smith" ∧
    infer_last_from_email (enc "J") (enc "jsmith@acme.com") = enc "Smith" := by
  refine ⟨?_, ?_, by decide, by decide⟩
  · intro h
    rw [infer_last_from_email, if_pos h]
  · intro he hf h
    rw [infer_last_from_email, if_neg (not_or.mpr ⟨he, hf⟩)]
    simp only [h]

/-- Witness for `infer_last_spec`: the "John" case goes through the regex
branch with capture "smith". -/
theorem infer_last_spec_witness :
    infer_last_from_email (enc "John") (enc "john.smith@acme.com") = pyTitle (enc "smith") :=
  (infer_last_spec (enc "John") (enc "john.smith@acme.com") (enc "smith")).2.1
    (by decide) (by decide) (by decide)

theorem takeWhile_drop_head (p : Nat → Bool) (s : Str) (b : Nat) (r : Str)
    (h : s.drop (s.takeWhile p).length = b :: r) : p b = false := by
  induction s generalizing b r with
  | nil => simp at h
  | cons c s' ih =>
    by_cases hc : p c = true
    · rw [List.takeWhile_cons, if_pos hc] at h
      simp only [List.length_cons, List.drop_succ_cons] at h
      exact ih b r h
    · have hc' : p c = false := by simpa using hc
      rw [List.takeWhile_cons, if_neg (by simp [hc'])] at h
      simp only [List.length_nil, List.drop_zero] at h
      obtain ⟨hb, -⟩ := List.cons.inj h
      subst hb
      exact hc'

theorem emailRegexOk_contains (s : Str) (h : emailRegexOk s = true) :
    s.contains 64 = true := by
  simp only [emailRegexOk] at h
  cases hd : s.drop ((s.takeWhile (fun c => c != 64)).length) with
  | nil =>
    rw [hd] at h
    simp at h
  | cons b r =>
    have hb : (b != 64) = false := takeWhile_drop_head _ s b r hd
    have hb64 : b = 64 := by simpa using hb
    subst hb64
    have hmem : (64 : Nat) ∈ s := by
      apply List.mem_of_mem_drop (n := (s.takeWhile (fun c => c != 64)).length)
      rw [hd]
      exact List.mem_cons_self _ _
    exact List.elem_eq_true_of_mem hmem

/-- C8: the email validator classifies in the fixed order missing, then
format regex, then disposable denylist: any email string that passes the
format regex but whose domain is in the disposable denylist is rejected
with reason "Disposable Email"; in particular
`validate_email_format "a@mailinator.com" = (False, "Disposable Email")`. -/
theorem validate_email_disposable (s : Str)
    (h1 : s ≠ []) (h2 : pyStrip s ≠ [])
    (h3 : emailRegexOk (pyLower (pyStrip s)) = true)
    (h4 : emailDomain (pyLower (pyStrip s)) ∈ DISPOSABLE_EMAIL_DOMAINS) :
    validate_email_format (some s) = (false, enc "Disposable Email") := by
  have hie : s.isEmpty = false := by simpa [List.isEmpty_iff] using h1
  have hie2 : (pyStrip s).isEmpty = false := by simpa [List.isEmpty_iff] using h2
  have hc64 : (pyLower (pyStrip s)).contains 64 = true := emailRegexOk_contains _ h3
  have hds : DISPOSABLE_EMAIL_DOMAINS.contains (emailDomain (pyLower (pyStrip s))) = true :=
    List.elem_eq_true_of_mem h4
  simp [validate_email_format, hie, hie2, h3, hc64, hds]
  exact ⟨by simpa using hc64, h4⟩

/-- Witness for `validate_email_disposable` at the concrete email of the
claim. -/
theorem validate_email_disposable_witness :
    validate_email_format (some (enc "a@mailinator.com")) = (false, enc "Disposable Email") :=
  validate_email_disposable (enc "a@mailinator.com")
    (by decide) (by decide) (by decide) (by decide)

theorem applyUpd_email (rm : Row × Mask) (c : Col) (v : Str) (P : Prop) [Decidable P]
    (hc : c ≠ Col.email) :
    (applyUpd rm c v P).1.email = rm.1.email ∧
    (applyUpd rm c v P).2.email = rm.2.email := by
  unfold applyUpd
  split_ifs
  · cases c
    · exact ⟨rfl, rfl⟩
    · exact ⟨rfl, rfl⟩
    · exact ⟨rfl, rfl⟩
    · exact absurd rfl hc
    · exact ⟨rfl, rfl⟩
    · exact ⟨rfl, rfl⟩
  · exact ⟨rfl, rfl⟩

theorem clean_data_row_email (o : CleanOptions) (r : Row) :
    (clean_data_row o r).1.email = r.email ∧ (clean_data_row o r).2.email = false := by
  simp only [clean_data_row]
  constructor
  · rw [(applyUpd_email _ Col.company _ _ (by decide)).1,
      (applyUpd_email _ Col.last _ _ (by decide)).1,
      (applyUpd_email _ Col.first _ _ (by decide)).1,
      (applyUpd_email _ Col.title _ _ (by decide)).1,
      (applyUpd_email _ Col.phone _ _ (by decide)).1]
  · rw [(applyUpd_email _ Col.company _ _ (by decide)).2,
      (applyUpd_email _ Col.last _ _ (by decide)).2,
      (applyUpd_email _ Col.first _ _ (by decide)).2,
      (applyUpd_email _ Col.title _ _ (by decide)).2,
      (applyUpd_email _ Col.phone _ _ (by decide)).2]
    rfl

/-- C9: the cleaning pipeline never modifies the email column: for every
option configuration and dataset, the cleaned rows carry exactly the
original email cells and the changed-mask email flags are all `False`
(`clean_data` validates emails but never writes the email column). -/
theorem clean_data_never_touches_email (o : CleanOptions) (rows : List Row) :
    (clean_data o rows).1.map Row.email = rows.map Row.email ∧
    (clean_data o rows).2.1.map Mask.email = rows.map (fun _ => false) := by
  constructor
  · simp only [clean_data, List.map_map]
    exact List.map_congr_left (fun r _ => (clean_data_row_email o r).1)
  · simp only [clean_data, List.map_map]
    exact List.map_congr_left (fun r _ => (clean_data_row_email o r).2)
